import Mathlib

/-!
Verification of the BenchmarkLeaderboard cog
(src/benchmarkleaderboard/benchmarkleaderboard.py).

The cog keeps `self.leaderboards : Dict[str, Dict[int, float]]`, a mapping
from benchmark-type (category) name to a per-user best score, and persists
the whole mapping with `await self.config.leaderboards.set(...)` after
every in-memory mutation.

Embedding choices:
- Python `dict` is modelled as an association list with Python's insertion
  semantics: lookup finds the first matching key, assignment overwrites an
  existing key in place, a new key is appended at the end, `del` removes
  the entry.  A well-formedness predicate (`Store.WF`) records that real
  dicts never hold duplicate keys.
- Python `float` scores are modelled as rationals (`ℚ`).
- `user.id` / `ctx.author.id` are modelled as integers.
- The `await self.config.leaderboards.set(...)` durable write is modelled
  by a `persistOk` flag: when it is `false` the call raises, the command
  aborts at that point (so no further message is sent), and the in-memory
  state is whatever it was at the moment of the call.
- `ctx.send` replies are modelled as structured values; the Discord user
  lookup (`fetch_user`) performed while rendering is presentation only and
  is modelled as always succeeding.
-/

namespace BenchmarkLeaderboard

section Dict

variable {α : Type} {β : Type} [DecidableEq α]

/-- Python `d.get(k)` / `d[k]`: the value stored at `k`, if any. -/
def dGet (k : α) : List (α × β) → Option β
  | [] => none
  | (k', v) :: t => if k' = k then some v else dGet k t

/-- Python `d[k] = v`: overwrite the existing entry in place, or append. -/
def dSet (k : α) (v : β) : List (α × β) → List (α × β)
  | [] => [(k, v)]
  | (k', v') :: t => if k' = k then (k, v) :: t else (k', v') :: dSet k v t

/-- Python `del d[k]`: drop the entry stored at `k`. -/
def dDel (k : α) : List (α × β) → List (α × β)
  | [] => []
  | (k', v') :: t => if k' = k then t else (k', v') :: dDel k t

/-- Python `k in d`. -/
def dHasKey (d : List (α × β)) (k : α) : Bool :=
  (dGet k d).isSome

@[simp] theorem dGet_nil (k : α) : dGet k ([] : List (α × β)) = none := rfl

theorem dGet_cons (k : α) (p : α × β) (t : List (α × β)) :
    dGet k (p :: t) = if p.1 = k then some p.2 else dGet k t := by
  cases p; rfl

@[simp] theorem dGet_dSet_self (k : α) (v : β) (d : List (α × β)) :
    dGet k (dSet k v d) = some v := by
  induction d with
  | nil => simp [dGet, dSet]
  | cons p t ih =>
      cases p with
      | mk k' v' =>
          by_cases h : k' = k
          · simp [dGet, dSet, h]
          · simp [dGet, dSet, h, ih]

theorem dGet_dSet_ne (k k' : α) (v : β) (d : List (α × β)) (h : k' ≠ k) :
    dGet k' (dSet k v d) = dGet k' d := by
  induction d with
  | nil => simp [dGet, dSet, Ne.symm h]
  | cons p t ih =>
      cases p with
      | mk k₀ v₀ =>
          by_cases h₀ : k₀ = k
          · subst h₀
            simp [dGet, dSet, Ne.symm h]
          · simp [dGet, dSet, h₀, ih]

theorem dGet_dDel_ne (k k' : α) (d : List (α × β)) (h : k' ≠ k) :
    dGet k' (dDel k d) = dGet k' d := by
  induction d with
  | nil => simp [dDel]
  | cons p t ih =>
      cases p with
      | mk k₀ v₀ =>
          by_cases h₀ : k₀ = k
          · subst h₀
            simp [dGet, dDel, Ne.symm h]
          · simp [dGet, dDel, h₀, ih]

theorem map_fst_dDel_sublist (k : α) (d : List (α × β)) :
    ((dDel k d).map Prod.fst).Sublist (d.map Prod.fst) := by
  induction d with
  | nil => simp [dDel]
  | cons p t ih =>
      cases p with
      | mk k₀ v₀ =>
          by_cases h₀ : k₀ = k
          · simp [dDel, h₀, List.sublist_cons_self]
          · simpa [dDel, h₀] using ih.cons₂ k₀

theorem dGet_eq_none_of_not_mem (k : α) (d : List (α × β))
    (h : k ∉ d.map Prod.fst) : dGet k d = none := by
  induction d with
  | nil => rfl
  | cons p t ih =>
      cases p with
      | mk k₀ v₀ =>
          simp only [List.map_cons, List.mem_cons] at h
          push_neg at h
          simp [dGet, Ne.symm h.1, ih h.2]

theorem dGet_dDel_self (k : α) (d : List (α × β))
    (h : (d.map Prod.fst).Nodup) : dGet k (dDel k d) = none := by
  induction d with
  | nil => rfl
  | cons p t ih =>
      cases p with
      | mk k₀ v₀ =>
          simp only [List.map_cons, List.nodup_cons] at h
          by_cases h₀ : k₀ = k
          · subst h₀
            simpa [dDel] using dGet_eq_none_of_not_mem k₀ t h.1
          · simp [dDel, dGet, h₀, ih h.2]

theorem dHasKey_iff_mem (d : List (α × β)) (k : α) :
    dHasKey d k = true ↔ k ∈ d.map Prod.fst := by
  induction d with
  | nil => simp [dHasKey, dGet]
  | cons p t ih =>
      cases p with
      | mk k₀ v₀ =>
          by_cases h₀ : k₀ = k
          · simp [dHasKey, dGet, h₀]
          · have h₁ : ¬ k = k₀ := fun hk => h₀ hk.symm
            simp only [dHasKey, dGet, h₀, if_false, List.map_cons,
              List.mem_cons]
            simp only [dHasKey] at ih
            simp [ih, h₁]

theorem map_fst_dSet (k : α) (v : β) (d : List (α × β)) :
    (dSet k v d).map Prod.fst =
      if dHasKey d k then d.map Prod.fst else d.map Prod.fst ++ [k] := by
  induction d with
  | nil => simp [dSet, dHasKey, dGet]
  | cons p t ih =>
      cases p with
      | mk k₀ v₀ =>
          by_cases h₀ : k₀ = k
          · subst h₀
            simp [dSet, dHasKey, dGet]
          · have h₁ : dHasKey ((k₀, v₀) :: t) k = dHasKey t k := by
              simp [dHasKey, dGet, h₀]
            simp only [dSet, h₀, if_false, List.map_cons, ih, h₁]
            by_cases hk : dHasKey t k
            · simp [hk]
            · simp [hk]

theorem nodup_map_fst_dSet (k : α) (v : β) (d : List (α × β))
    (h : (d.map Prod.fst).Nodup) : ((dSet k v d).map Prod.fst).Nodup := by
  rw [map_fst_dSet]
  by_cases hk : dHasKey d k
  · simpa [hk]
  · rw [if_neg hk]
    have hknot : k ∉ d.map Prod.fst := fun hm => hk ((dHasKey_iff_mem d k).2 hm)
    rw [List.nodup_append]
    refine ⟨h, List.nodup_singleton k, ?_⟩
    intro a ha hb
    simp only [List.mem_singleton] at hb
    exact hknot (hb ▸ ha)

end Dict

/-- Discord user ids (`ctx.author.id`, `user.id`). -/
abbrev UserId := Int

/-- Benchmark scores; Python floats are modelled as rationals. -/
abbrev Score := ℚ

/-- One inner dict `Dict[int, float]`: per-user best score in a category. -/
abbrev CatMap := List (UserId × Score)

/-- The cog state `self.leaderboards : Dict[str, Dict[int, float]]`. -/
abbrev Store := List (String × CatMap)

/-- Real Python dicts never hold duplicate keys: the outer keys are
distinct and so are the user ids inside every category. -/
def Store.WF (st : Store) : Prop :=
  (st.map Prod.fst).Nodup ∧ ∀ p ∈ st, (p.2.map Prod.fst).Nodup

instance (st : Store) : Decidable st.WF := by
  unfold Store.WF
  infer_instance

/-- The spec's `Get(category, userId)`: the read pattern
`self.leaderboards[benchmark_type].get(user_id)` used by the cog. -/
def Get (st : Store) (bt : String) (uid : UserId) : Option Score :=
  (dGet bt st).bind (fun scores => dGet uid scores)

/-- The spec's `Categories()`: `self.leaderboards.keys()`. -/
def Categories (st : Store) : List String :=
  st.map Prod.fst

/-- Replies `benchmark_add` can send with `ctx.send`. -/
inductive AddReply where
  | addedNew (bt : String) (score : Score)
  | updatedHigh (bt : String) (prev score : Score)
  | notUpdated (prev : Score) (bt : String)
deriving DecidableEq

/-- Replies `benchmark_delete` can send with `ctx.send`. -/
inductive DeleteReply where
  | noLeaderboard (bt : String)
  | deletedUserScore (bt : String) (uid : UserId)
  | noScoreForUser (bt : String) (uid : UserId)
  | deletedCategory (bt : String)
deriving DecidableEq

/-- Outcome of running one command coroutine to completion.
`store` is the in-memory `self.leaderboards` afterwards; `persistCalls`
counts the `self.config.leaderboards.set` attempts; `persisted` is the
value durably written when the write succeeded; `reply` is the message
the command itself sent, `none` when the persist call raised first. -/
structure Exec (ρ : Type) where
  store : Store
  persistCalls : Nat
  persisted : Option Store
  reply : Option ρ
deriving DecidableEq

/-- The `[p]benchmark add` command (`benchmark_add` in the source).
The Python guard `previous_score is None or score > previous_score`
is split into the two accepting branches below. -/
def benchmark_add (persistOk : Bool) (st : Store) (bt : String)
    (uid : UserId) (score : Score) : Exec AddReply :=
  let st1 := if dHasKey st bt then st else dSet bt ([] : CatMap) st
  let scores0 := (dGet bt st1).getD []
  match dGet uid scores0 with
  | none =>
      let st2 := dSet bt (dSet uid score scores0) st1
      if persistOk then
        { store := st2, persistCalls := 1, persisted := some st2,
          reply := some (.addedNew bt score) }
      else
        { store := st2, persistCalls := 1, persisted := none, reply := none }
  | some prev =>
      if prev < score then
        let st2 := dSet bt (dSet uid score scores0) st1
        if persistOk then
          { store := st2, persistCalls := 1, persisted := some st2,
            reply := some (.updatedHigh bt prev score) }
        else
          { store := st2, persistCalls := 1, persisted := none, reply := none }
      else
        { store := st1, persistCalls := 0, persisted := none,
          reply := some (.notUpdated prev bt) }

/-- Python's stable `sorted(scores.items(), key=..., reverse=True)`:
non-increasing by score, ties keeping insertion order. -/
def sortedScoresDesc (scores : CatMap) : CatMap :=
  scores.mergeSort (fun a b => decide (b.2 ≤ a.2))

/-- The spec's `Top(category, n)`: `sorted_scores[:n]` over the category's
entries; the source instantiates `n = 10` (view) and `n = 3` (leaderboard). -/
def Top (st : Store) (bt : String) (n : Nat) : CatMap :=
  (sortedScoresDesc ((dGet bt st).getD [])).take n

/-- The `[p]benchmark view` command: `none` models the
"No scores found" reply, otherwise the ranked top ten that the embed
renders (per-entry user-name resolution is presentation only). -/
def benchmark_view (st : Store) (bt : String) : Option CatMap :=
  if !dHasKey st bt || ((dGet bt st).getD []).isEmpty then none
  else some (Top st bt 10)

/-- The `[p]benchmark types` command: `none` models the
"No benchmark types have been created yet" reply, otherwise the sorted
key listing. -/
def benchmark_types (st : Store) : Option (List String) :=
  if st.isEmpty then none
  else some ((Categories st).mergeSort (fun a b => decide (¬ b < a)))

/-- The `[p]benchmark delete` command (`benchmark_delete` in the source):
with a user argument it deletes that user's score, without one it deletes
the whole benchmark type. -/
def benchmark_delete (persistOk : Bool) (st : Store) (bt : String)
    (user : Option UserId) : Exec DeleteReply :=
  if !dHasKey st bt then
    { store := st, persistCalls := 0, persisted := none,
      reply := some (.noLeaderboard bt) }
  else
    match user with
    | some uid =>
        if dHasKey ((dGet bt st).getD []) uid then
          let st2 := dSet bt (dDel uid ((dGet bt st).getD [])) st
          if persistOk then
            { store := st2, persistCalls := 1, persisted := some st2,
              reply := some (.deletedUserScore bt uid) }
          else
            { store := st2, persistCalls := 1, persisted := none,
              reply := none }
        else
          { store := st, persistCalls := 0, persisted := none,
            reply := some (.noScoreForUser bt uid) }
    | none =>
        let st2 := dDel bt st
        if persistOk then
          { store := st2, persistCalls := 1, persisted := some st2,
            reply := some (.deletedCategory bt) }
        else
          { store := st2, persistCalls := 1, persisted := none,
            reply := none }

/-- The dict comprehension in the `[p]benchmark history` command:
`\x7bbt: scores.get(user.id) for bt, scores in self.leaderboards.items()
if user.id in scores\x7d`. -/
def benchmark_history (st : Store) (uid : UserId) : List (String × Option Score) :=
  st.filterMap (fun p =>
    if dHasKey p.2 uid then some (p.1, dGet uid p.2) else none)

/-- The loop body of the `[p]benchmark leaderboard` command: skip empty
or already-processed benchmark types, otherwise emit the top `n` of the
category and mark it processed (user-name resolution is presentation
only and modelled as succeeding). -/
def leaderboardGo (n : Nat) : List (String × CatMap) → List String →
    List (String × CatMap)
  | [], _ => []
  | (bt, scores) :: t, processed =>
      if scores.isEmpty || decide (bt ∈ processed) then
        leaderboardGo n t processed
      else
        (bt, (sortedScoresDesc scores).take n) ::
          leaderboardGo n t (bt :: processed)

/-- The spec's `TopAllCategories(n)` as the source's leaderboard loop
computes it, starting from an empty `processed_types` set. -/
def topAllCategories (st : Store) (n : Nat) : List (String × CatMap) :=
  leaderboardGo n st []

/-- The `[p]benchmark leaderboard` command uses the loop with `[:3]`. -/
def benchmark_leaderboard (st : Store) : List (String × CatMap) :=
  topAllCategories st 3

/-- Replies of `benchmark_add` that acknowledge a mutation. -/
def AddReply.isSuccess : AddReply → Bool
  | .notUpdated _ _ => false
  | _ => true

/-- Replies of `benchmark_delete` that acknowledge a mutation. -/
def DeleteReply.isSuccess : DeleteReply → Bool
  | .deletedUserScore _ _ => true
  | .deletedCategory _ => true
  | _ => false

theorem add_absent (persistOk : Bool) (st : Store) (bt : String)
    (uid : UserId) (s : Score) (h : dGet bt st = none) :
    benchmark_add persistOk st bt uid s =
      { store := dSet bt [(uid, s)] (dSet bt [] st), persistCalls := 1,
        persisted :=
          if persistOk then some (dSet bt [(uid, s)] (dSet bt [] st)) else none,
        reply := if persistOk then some (.addedNew bt s) else none } := by
  cases persistOk <;>
    simp [benchmark_add, dHasKey, h, dGet_dSet_self, dGet, dSet]

theorem add_user_absent (persistOk : Bool) (st : Store) (bt : String)
    (uid : UserId) (s : Score) (scores : CatMap) (h : dGet bt st = some scores)
    (hu : dGet uid scores = none) :
    benchmark_add persistOk st bt uid s =
      { store := dSet bt (dSet uid s scores) st, persistCalls := 1,
        persisted :=
          if persistOk then some (dSet bt (dSet uid s scores) st) else none,
        reply := if persistOk then some (.addedNew bt s) else none } := by
  cases persistOk <;> simp [benchmark_add, dHasKey, h, hu]

theorem add_higher (persistOk : Bool) (st : Store) (bt : String)
    (uid : UserId) (s : Score) (scores : CatMap) (p : Score)
    (h : dGet bt st = some scores) (hu : dGet uid scores = some p)
    (hps : p < s) :
    benchmark_add persistOk st bt uid s =
      { store := dSet bt (dSet uid s scores) st, persistCalls := 1,
        persisted :=
          if persistOk then some (dSet bt (dSet uid s scores) st) else none,
        reply := if persistOk then some (.updatedHigh bt p s) else none } := by
  cases persistOk <;> simp [benchmark_add, dHasKey, h, hu, hps]

theorem add_reject (persistOk : Bool) (st : Store) (bt : String)
    (uid : UserId) (s : Score) (scores : CatMap) (p : Score)
    (h : dGet bt st = some scores) (hu : dGet uid scores = some p)
    (hps : ¬ p < s) :
    benchmark_add persistOk st bt uid s =
      { store := st, persistCalls := 0, persisted := none,
        reply := some (.notUpdated p bt) } := by
  cases persistOk <;> simp [benchmark_add, dHasKey, h, hu, hps]

/-- C1: `Put(c, u, s)` is accepted and stores `s` (so `Get(c, u)`
afterwards returns `s`) exactly when no prior entry exists for `(c, u)`
or `s` strictly exceeds the prior value; otherwise it is rejected, the
store is unchanged and no persist is triggered — in particular a score
equal to the stored one is rejected, since `p < s` fails. -/
theorem put_accepted_iff_no_prior_or_higher (st : Store) (bt : String)
    (uid : UserId) (s : Score) :
    match Get st bt uid with
    | none =>
        (benchmark_add true st bt uid s).reply = some (.addedNew bt s)
        ∧ Get (benchmark_add true st bt uid s).store bt uid = some s
        ∧ (benchmark_add true st bt uid s).persistCalls = 1
    | some p =>
        if p < s then
          (benchmark_add true st bt uid s).reply = some (.updatedHigh bt p s)
          ∧ Get (benchmark_add true st bt uid s).store bt uid = some s
          ∧ (benchmark_add true st bt uid s).persistCalls = 1
        else
          (benchmark_add true st bt uid s).reply = some (.notUpdated p bt)
          ∧ (benchmark_add true st bt uid s).store = st
          ∧ (benchmark_add true st bt uid s).persistCalls = 0 := by
  cases hbt : dGet bt st with
  | none =>
      have hg : Get st bt uid = none := by simp [Get, hbt]
      rw [hg]
      rw [add_absent true st bt uid s hbt]
      refine ⟨rfl, ?_, rfl⟩
      simp [Get, dGet_dSet_self, dGet]
  | some scores =>
      have hg : Get st bt uid = dGet uid scores := by simp [Get, hbt]
      cases hu : dGet uid scores with
      | none =>
          rw [hg, hu]
          rw [add_user_absent true st bt uid s scores hbt hu]
          refine ⟨rfl, ?_, rfl⟩
          simp [Get, dGet_dSet_self, dGet]
      | some p =>
          rw [hg, hu]
          by_cases hps : p < s
          · rw [add_higher true st bt uid s scores p hbt hu hps]
            simp [hps, Get, dGet_dSet_self, dGet]
          · rw [add_reject true st bt uid s scores p hbt hu hps]
            simp [hps]

/-- After one `benchmark_add` the stored score for `(bt, uid)` is the
maximum of the prior value (if any) and the submitted one. -/
theorem get_add_self (persistOk : Bool) (st : Store) (bt : String)
    (uid : UserId) (s : Score) :
    Get (benchmark_add persistOk st bt uid s).store bt uid =
      some (match Get st bt uid with | none => s | some p => max p s) := by
  cases hbt : dGet bt st with
  | none =>
      have hg : Get st bt uid = none := by simp [Get, hbt]
      rw [hg, add_absent persistOk st bt uid s hbt]
      simp [Get, dGet_dSet_self, dGet]
  | some scores =>
      have hg : Get st bt uid = dGet uid scores := by simp [Get, hbt]
      cases hu : dGet uid scores with
      | none =>
          rw [hg, hu, add_user_absent persistOk st bt uid s scores hbt hu]
          simp [Get, dGet_dSet_self, dGet]
      | some p =>
          rw [hg, hu]
          by_cases hps : p < s
          · rw [add_higher persistOk st bt uid s scores p hbt hu hps]
            simp [Get, dGet_dSet_self, dGet, max_eq_right (le_of_lt hps)]
          · rw [add_reject persistOk st bt uid s scores p hbt hu hps]
            simp [Get, hbt, hu, max_eq_left (le_of_not_lt hps)]

/-- A sequence of `[p]benchmark add` invocations for one user and one
benchmark type, threading the in-memory store. -/
def runPuts (st : Store) (bt : String) (uid : UserId) : List Score → Store
  | [] => st
  | s :: rest => runPuts (benchmark_add true st bt uid s).store bt uid rest

theorem runPuts_get (bt : String) (uid : UserId) (ss : List Score) :
    ∀ (st : Store) (p : Score), Get st bt uid = some p →
      Get (runPuts st bt uid ss) bt uid = some (ss.foldl max p) := by
  induction ss with
  | nil => intro st p h; simpa [runPuts] using h
  | cons s rest ih =>
      intro st p h
      have h1 : Get (benchmark_add true st bt uid s).store bt uid =
          some (max p s) := by
        rw [get_add_self true st bt uid s, h]
      simpa [runPuts] using ih _ (max p s) h1

/-- C2: starting from a state with no entry for `(c, u)`, after any
nonempty sequence of `Put` calls for that pair, `Get(c, u)` returns the
maximum score ever submitted in the sequence (so `Put(c,u,5)` then
`Put(c,u,3)` leaves `Get(c,u) = 5`). -/
theorem put_monotonic_max (st : Store) (bt : String) (uid : UserId)
    (h : Get st bt uid = none) (s : Score) (ss : List Score) :
    Get (runPuts st bt uid (s :: ss)) bt uid = some (ss.foldl max s) := by
  have h1 : Get (benchmark_add true st bt uid s).store bt uid = some s := by
    rw [get_add_self true st bt uid s, h]
  simpa [runPuts] using runPuts_get bt uid ss _ s h1

/-- Witness for C2 at the spec's own example: submitting 5 then 3 leaves
the stored score at 5, and the second submission is rejected. -/
theorem put_monotonic_max_witness :
    Get (runPuts [] "cpu" 1 [5, 3]) "cpu" 1 = some ([3].foldl max 5)
    ∧ (benchmark_add true (runPuts [] "cpu" 1 [5]) "cpu" 1 3).reply =
        some (.notUpdated 5 "cpu") :=
  ⟨put_monotonic_max [] "cpu" 1 rfl 5 [3], by decide⟩

theorem delete_absent (persistOk : Bool) (st : Store) (bt : String)
    (user : Option UserId) (h : dHasKey st bt = false) :
    benchmark_delete persistOk st bt user =
      { store := st, persistCalls := 0, persisted := none,
        reply := some (.noLeaderboard bt) } := by
  simp [benchmark_delete, h]

theorem delete_user_present (persistOk : Bool) (st : Store) (bt : String)
    (uid : UserId) (hbt : dHasKey st bt = true)
    (hu : dHasKey ((dGet bt st).getD []) uid = true) :
    benchmark_delete persistOk st bt (some uid) =
      { store := dSet bt (dDel uid ((dGet bt st).getD [])) st,
        persistCalls := 1,
        persisted :=
          if persistOk then
            some (dSet bt (dDel uid ((dGet bt st).getD [])) st)
          else none,
        reply := if persistOk then some (.deletedUserScore bt uid) else none } := by
  cases persistOk <;> simp [benchmark_delete, hbt, hu]

theorem delete_user_absent (persistOk : Bool) (st : Store) (bt : String)
    (uid : UserId) (hbt : dHasKey st bt = true)
    (hu : dHasKey ((dGet bt st).getD []) uid = false) :
    benchmark_delete persistOk st bt (some uid) =
      { store := st, persistCalls := 0, persisted := none,
        reply := some (.noScoreForUser bt uid) } := by
  simp [benchmark_delete, hbt, hu]

theorem delete_category_present (persistOk : Bool) (st : Store) (bt : String)
    (hbt : dHasKey st bt = true) :
    benchmark_delete persistOk st bt none =
      { store := dDel bt st, persistCalls := 1,
        persisted := if persistOk then some (dDel bt st) else none,
        reply := if persistOk then some (.deletedCategory bt) else none } := by
  cases persistOk <;> simp [benchmark_delete, hbt]

/-- Counterexample to C3 as stated: starting from the empty store, an
accepted `add` whose durable write fails sends no success reply, but the
in-memory store is not rolled back to its pre-mutation (empty) value,
and the write is attempted exactly once, so it is not retried either. -/
theorem persist_failure_no_rollback_counterexample :
    (benchmark_add false [] "cpu" 1 95.5).reply = none
    ∧ (benchmark_add false [] "cpu" 1 95.5).store ≠ ([] : Store)
    ∧ (benchmark_add false [] "cpu" 1 95.5).persistCalls = 1 := by
  refine ⟨rfl, ?_, rfl⟩
  decide

/-- C3 amended: every mutation persists the full store before its success
reply (a success reply implies the persist succeeded on the final
post-mutation store), and on a persist failure the caller sees no success
reply; but the in-memory state keeps the mutation (it equals the state a
successful run would leave) and the write is attempted at most once. -/
theorem persist_before_acknowledge (st : Store) (bt : String) (uid : UserId)
    (s : Score) (user : Option UserId) :
    (∀ r, (benchmark_add true st bt uid s).reply = some r →
        r.isSuccess = true →
        (benchmark_add true st bt uid s).persisted =
          some (benchmark_add true st bt uid s).store)
    ∧ (∀ r, (benchmark_add false st bt uid s).reply = some r →
        r.isSuccess = false)
    ∧ (benchmark_add false st bt uid s).persistCalls ≤ 1
    ∧ (benchmark_add false st bt uid s).store =
        (benchmark_add true st bt uid s).store
    ∧ (∀ r, (benchmark_delete true st bt user).reply = some r →
        r.isSuccess = true →
        (benchmark_delete true st bt user).persisted =
          some (benchmark_delete true st bt user).store)
    ∧ (∀ r, (benchmark_delete false st bt user).reply = some r →
        r.isSuccess = false)
    ∧ (benchmark_delete false st bt user).persistCalls ≤ 1
    ∧ (benchmark_delete false st bt user).store =
        (benchmark_delete true st bt user).store := by
  have hadd : ∀ persistOk, ∃ e, benchmark_add persistOk st bt uid s = e := by
    intro persistOk; exact ⟨_, rfl⟩
  refine ⟨?_, ?_, ?_, ?_, ?_, ?_, ?_, ?_⟩
  · intro r hr hs
    cases hbt : dGet bt st with
    | none => rw [add_absent true st bt uid s hbt]; rfl
    | some scores =>
        cases hu : dGet uid scores with
        | none => rw [add_user_absent true st bt uid s scores hbt hu]; rfl
        | some p =>
            by_cases hps : p < s
            · rw [add_higher true st bt uid s scores p hbt hu hps]; rfl
            · rw [add_reject true st bt uid s scores p hbt hu hps] at hr
              simp at hr
              rw [← hr] at hs
              simp [AddReply.isSuccess] at hs
  · intro r hr
    cases hbt : dGet bt st with
    | none => rw [add_absent false st bt uid s hbt] at hr; simp at hr
    | some scores =>
        cases hu : dGet uid scores with
        | none => rw [add_user_absent false st bt uid s scores hbt hu] at hr; simp at hr
        | some p =>
            by_cases hps : p < s
            · rw [add_higher false st bt uid s scores p hbt hu hps] at hr
              simp at hr
            · rw [add_reject false st bt uid s scores p hbt hu hps] at hr
              simp at hr
              rw [← hr]
              rfl
  · cases hbt : dGet bt st with
    | none => rw [add_absent false st bt uid s hbt]
    | some scores =>
        cases hu : dGet uid scores with
        | none => rw [add_user_absent false st bt uid s scores hbt hu]
        | some p =>
            by_cases hps : p < s
            · rw [add_higher false st bt uid s scores p hbt hu hps]
            · rw [add_reject false st bt uid s scores p hbt hu hps]
              simp
  · cases hbt : dGet bt st with
    | none =>
        rw [add_absent false st bt uid s hbt, add_absent true st bt uid s hbt]
    | some scores =>
        cases hu : dGet uid scores with
        | none =>
            rw [add_user_absent false st bt uid s scores hbt hu,
              add_user_absent true st bt uid s scores hbt hu]
        | some p =>
            by_cases hps : p < s
            · rw [add_higher false st bt uid s scores p hbt hu hps,
                add_higher true st bt uid s scores p hbt hu hps]
            · rw [add_reject false st bt uid s scores p hbt hu hps,
                add_reject true st bt uid s scores p hbt hu hps]
  · intro r hr hs
    cases hbt : dHasKey st bt with
    | false =>
        rw [delete_absent true st bt user hbt] at hr
        simp at hr
        rw [← hr] at hs
        simp [DeleteReply.isSuccess] at hs
    | true =>
        cases user with
        | none => rw [delete_category_present true st bt hbt]; rfl
        | some uid' =>
            cases hu : dHasKey ((dGet bt st).getD []) uid' with
            | false =>
                rw [delete_user_absent true st bt uid' hbt hu] at hr
                simp at hr
                rw [← hr] at hs
                simp [DeleteReply.isSuccess] at hs
            | true => rw [delete_user_present true st bt uid' hbt hu]; rfl
  · intro r hr
    cases hbt : dHasKey st bt with
    | false =>
        rw [delete_absent false st bt user hbt] at hr
        simp at hr
        rw [← hr]
        rfl
    | true =>
        cases user with
        | none =>
            rw [delete_category_present false st bt hbt] at hr
            simp at hr
        | some uid' =>
            cases hu : dHasKey ((dGet bt st).getD []) uid' with
            | false =>
                rw [delete_user_absent false st bt uid' hbt hu] at hr
                simp at hr
                rw [← hr]
                rfl
            | true =>
                rw [delete_user_present false st bt uid' hbt hu] at hr
                simp at hr
  · cases hbt : dHasKey st bt with
    | false => rw [delete_absent false st bt user hbt]; simp
    | true =>
        cases user with
        | none => rw [delete_category_present false st bt hbt]
        | some uid' =>
            cases hu : dHasKey ((dGet bt st).getD []) uid' with
            | false => rw [delete_user_absent false st bt uid' hbt hu]; simp
            | true => rw [delete_user_present false st bt uid' hbt hu]
  · cases hbt : dHasKey st bt with
    | false =>
        rw [delete_absent false st bt user hbt, delete_absent true st bt user hbt]
    | true =>
        cases user with
        | none =>
            rw [delete_category_present false st bt hbt,
              delete_category_present true st bt hbt]
        | some uid' =>
            cases hu : dHasKey ((dGet bt st).getD []) uid' with
            | false =>
                rw [delete_user_absent false st bt uid' hbt hu,
                  delete_user_absent true st bt uid' hbt hu]
            | true =>
                rw [delete_user_present false st bt uid' hbt hu,
                  delete_user_present true st bt uid' hbt hu]

/-- Witness for the amended C3 at a concrete accepted mutation. -/
theorem persist_before_acknowledge_witness :
    (benchmark_add true [] "cpu" 1 95.5).persisted =
      some (benchmark_add true [] "cpu" 1 95.5).store :=
  (persist_before_acknowledge [] "cpu" 1 95.5 none).1
    (AddReply.addedNew "cpu" 95.5) rfl rfl

/-- C4: `Top(c, n)` is non-increasing by score, its length is exactly
`min n` (number of entries stored in `c`), and it is empty when the
category is absent or has no entries. -/
theorem top_sorted_and_length (st : Store) (bt : String) (n : Nat) :
    (Top st bt n).Pairwise (fun a b => b.2 ≤ a.2)
    ∧ (Top st bt n).length = min n ((dGet bt st).getD []).length
    ∧ (dHasKey st bt = false → Top st bt n = [])
    ∧ ((dGet bt st).getD [] = [] → Top st bt n = []) := by
  refine ⟨?_, ?_, ?_, ?_⟩
  · have htrans : ∀ a b c : UserId × Score,
        (fun a b : UserId × Score => decide (b.2 ≤ a.2)) a b →
          (fun a b : UserId × Score => decide (b.2 ≤ a.2)) b c →
          (fun a b : UserId × Score => decide (b.2 ≤ a.2)) a c := by
      intro a b c hab hbc
      simp only [decide_eq_true_eq] at *
      exact le_trans hbc hab
    have htotal : ∀ a b : UserId × Score,
        (fun a b : UserId × Score => decide (b.2 ≤ a.2)) a b ||
          (fun a b : UserId × Score => decide (b.2 ≤ a.2)) b a := by
      intro a b
      simpa using le_total b.2 a.2
    have hs := List.sorted_mergeSort htrans htotal ((dGet bt st).getD [])
    have ht := List.Pairwise.sublist (List.take_sublist n _) hs
    exact ht.imp (fun hd => by simpa using hd)
  · simp [Top, sortedScoresDesc, List.length_take]
  · intro h
    have : dGet bt st = none := by
      simpa [dHasKey, Option.isSome_iff_ne_none] using h
    simp [Top, sortedScoresDesc, this]
  · intro h
    simp [Top, sortedScoresDesc, h]

/-- Witness for C4 on a two-entry category and on the empty store. -/
theorem top_sorted_and_length_witness :
    (Top [("cpu", [(1, 95), (2, 99)])] "cpu" 10).length =
      min 10 ((dGet "cpu" [("cpu", [(1, 95), (2, 99)])]).getD []).length
    ∧ Top ([] : Store) "cpu" 10 = [] :=
  ⟨(top_sorted_and_length [("cpu", [(1, 95), (2, 99)])] "cpu" 10).2.1,
    (top_sorted_and_length [] "cpu" 10).2.2.1 rfl⟩

/-- C5: `DeleteCategory` on a category that does not exist replies
"No leaderboard found", leaves the store unchanged, and triggers no
persist call. -/
theorem delete_missing_category_noop (persistOk : Bool) (st : Store)
    (bt : String) (user : Option UserId) (h : dHasKey st bt = false) :
    (benchmark_delete persistOk st bt user).reply = some (.noLeaderboard bt)
    ∧ (benchmark_delete persistOk st bt user).store = st
    ∧ (benchmark_delete persistOk st bt user).persistCalls = 0 := by
  rw [delete_absent persistOk st bt user h]
  exact ⟨rfl, rfl, rfl⟩

/-- Witness for C5: deleting "cpu" from the empty store. -/
theorem delete_missing_category_noop_witness :
    (benchmark_delete true [] "cpu" none).reply =
      some (.noLeaderboard "cpu")
    ∧ (benchmark_delete true [] "cpu" none).store = []
    ∧ (benchmark_delete true [] "cpu" none).persistCalls = 0 :=
  delete_missing_category_noop true [] "cpu" none rfl

/-- C7: after deleting a whole category, `Get` on that category returns
`Absent` for every user. -/
theorem deleteCategory_then_get_absent (st : Store) (bt : String)
    (h : Store.WF st) (hk : dHasKey st bt = true) (uid : UserId) :
    Get (benchmark_delete true st bt none).store bt uid = none := by
  rw [delete_category_present true st bt hk]
  simp [Get, dGet_dDel_self bt st h.1]

/-- Witness for C7 on a one-category store. -/
theorem deleteCategory_then_get_absent_witness :
    Get (benchmark_delete true [("cpu", [(1, 5)])] "cpu" none).store
      "cpu" 1 = none :=
  deleteCategory_then_get_absent [("cpu", [(1, 5)])] "cpu"
    (by decide) (by decide) 1

theorem add_frame_other_category (persistOk : Bool) (st : Store)
    (bt : String) (uid : UserId) (s : Score) (bt' : String) (h : bt' ≠ bt) :
    dGet bt' (benchmark_add persistOk st bt uid s).store = dGet bt' st := by
  cases hbt : dGet bt st with
  | none =>
      rw [add_absent persistOk st bt uid s hbt]
      show dGet bt' (dSet bt [(uid, s)] (dSet bt [] st)) = dGet bt' st
      rw [dGet_dSet_ne bt bt' _ _ h, dGet_dSet_ne bt bt' _ _ h]
  | some scores =>
      cases hu : dGet uid scores with
      | none =>
          rw [add_user_absent persistOk st bt uid s scores hbt hu]
          exact dGet_dSet_ne bt bt' _ st h
      | some p =>
          by_cases hps : p < s
          · rw [add_higher persistOk st bt uid s scores p hbt hu hps]
            exact dGet_dSet_ne bt bt' _ st h
          · rw [add_reject persistOk st bt uid s scores p hbt hu hps]

/-- C9: category names are distinct, case-sensitive dictionary keys, and
every string is accepted: a `Put` into one category never changes `Get`
or `Top` on any different category name, in particular one that differs
only in letter case (all embedded operations are total, so none throws
for any category string). -/
theorem put_distinct_category_frame (persistOk : Bool) (st : Store)
    (bt : String) (uid : UserId) (s : Score) (bt' : String) (h : bt' ≠ bt)
    (uid' : UserId) (n : Nat) :
    Get (benchmark_add persistOk st bt uid s).store bt' uid' = Get st bt' uid'
    ∧ Top (benchmark_add persistOk st bt uid s).store bt' n = Top st bt' n := by
  have hf := add_frame_other_category persistOk st bt uid s bt' h
  exact ⟨by simp [Get, hf], by simp [Top, hf]⟩

/-- Witness for C9: a `Put` into "cpu" leaves "CPU" untouched. -/
theorem put_distinct_category_frame_witness :
    Get (benchmark_add true [] "cpu" 1 95).store "CPU" 1 = Get [] "CPU" 1
    ∧ Top (benchmark_add true [] "cpu" 1 95).store "CPU" 10 =
        Top [] "CPU" 10 :=
  put_distinct_category_frame true [] "cpu" 1 95 "CPU" (by decide) 1 10

theorem dGet_mem {α β : Type} [DecidableEq α] (k : α) (v : β)
    (d : List (α × β)) (h : dGet k d = some v) : (k, v) ∈ d := by
  induction d with
  | nil => simp [dGet] at h
  | cons p t ih =>
      cases p with
      | mk k₀ v₀ =>
          by_cases h₀ : k₀ = k
          · subst h₀
            simp [dGet] at h
            simp [h]
          · simp only [dGet, h₀, if_false] at h
            exact List.mem_cons_of_mem _ (ih h)

theorem map_fst_filterMap_keyed {α β γ : Type} (F : β → Option γ)
    (st : List (α × β)) :
    ((st.filterMap (fun p => (F p.2).map (fun v => (p.1, v)))).map
        Prod.fst).Sublist (st.map Prod.fst) := by
  induction st with
  | nil => simp
  | cons p t ih =>
      cases hF : F p.2 with
      | none =>
          simp only [List.filterMap_cons, hF, Option.map_none', List.map_cons]
          exact ih.trans (List.sublist_cons_self _ _)
      | some v =>
          simp only [List.filterMap_cons, hF, Option.map_some', List.map_cons]
          exact ih.cons₂ p.1

theorem dGet_filterMap_keyed {α β γ : Type} [DecidableEq α]
    (F : β → Option γ) (st : List (α × β)) (k : α)
    (h : (st.map Prod.fst).Nodup) :
    dGet k (st.filterMap (fun p => (F p.2).map (fun v => (p.1, v)))) =
      (dGet k st).bind F := by
  induction st with
  | nil => simp [dGet]
  | cons p t ih =>
      cases p with
      | mk k₀ b =>
          simp only [List.map_cons, List.nodup_cons] at h
          by_cases h₀ : k₀ = k
          · subst h₀
            cases hF : F b with
            | none =>
                simp only [List.filterMap_cons, hF, Option.map_none']
                have hnot : k₀ ∉ (t.filterMap
                    (fun p => (F p.2).map (fun v => (p.1, v)))).map Prod.fst :=
                  fun hm => h.1 ((map_fst_filterMap_keyed F t).subset hm)
                rw [dGet_eq_none_of_not_mem _ _ hnot]
                simp [dGet, hF]
            | some v =>
                simp only [List.filterMap_cons, hF, Option.map_some']
                simp [dGet, hF]
          · cases hF : F b with
            | none =>
                simp only [List.filterMap_cons, hF, Option.map_none']
                rw [ih h.2]
                simp [dGet, h₀]
            | some v =>
                simp only [List.filterMap_cons, hF, Option.map_some']
                simp only [dGet, h₀, if_false]
                exact ih h.2

/-- The per-category step of the history dict comprehension. -/
def historyF (uid : UserId) (scores : CatMap) : Option (Option Score) :=
  if dHasKey scores uid then some (dGet uid scores) else none

theorem history_eq_filterMap (st : Store) (uid : UserId) :
    benchmark_history st uid =
      st.filterMap (fun p => (historyF uid p.2).map (fun v => (p.1, v))) := by
  unfold benchmark_history
  induction st with
  | nil => rfl
  | cons p t ih =>
      simp only [List.filterMap_cons]
      by_cases hk : dHasKey p.2 uid
      · simp [historyF, hk, ih]
      · simp [historyF, hk, ih]

/-- C6: for a well-formed store, `History(u)` is a duplicate-free mapping
defined exactly on the categories where `u` has a stored score, with `u`'s
own score as the value — so it does not depend on other users' entries. -/
theorem history_domain_exact (st : Store) (uid : UserId) (h : Store.WF st)
    (bt : String) :
    dGet bt (benchmark_history st uid) = Option.map some (Get st bt uid)
    ∧ ((benchmark_history st uid).map Prod.fst).Nodup := by
  constructor
  · rw [history_eq_filterMap,
      dGet_filterMap_keyed (historyF uid) st bt h.1]
    cases hbt : dGet bt st with
    | none => simp [Get, hbt]
    | some scores =>
        cases hu : dGet uid scores with
        | none => simp [Get, hbt, hu, historyF, dHasKey]
        | some s => simp [Get, hbt, hu, historyF, dHasKey]
  · have hsub := map_fst_filterMap_keyed (historyF uid) st
    rw [← history_eq_filterMap st uid] at hsub
    exact List.Nodup.sublist hsub h.1

/-- Witness for C6 on a store where user 1 scored in "cpu" and another
user scored in "gpu". -/
theorem history_domain_exact_witness :
    dGet "cpu" (benchmark_history [("cpu", [(1, 5)]), ("gpu", [(2, 7)])] 1) =
      Option.map some (Get [("cpu", [(1, 5)]), ("gpu", [(2, 7)])] "cpu" 1)
    ∧ ((benchmark_history [("cpu", [(1, 5)]), ("gpu", [(2, 7)])] 1).map
        Prod.fst).Nodup :=
  history_domain_exact [("cpu", [(1, 5)]), ("gpu", [(2, 7)])] 1
    (by decide) "cpu"

/-- The per-category step of the leaderboard loop. -/
def topF (n : Nat) (scores : CatMap) : Option CatMap :=
  if scores.isEmpty then none else some ((sortedScoresDesc scores).take n)

theorem leaderboardGo_eq_filterMap (n : Nat) (st : List (String × CatMap)) :
    ∀ (processed : List String), (st.map Prod.fst).Nodup →
      (∀ b ∈ st.map Prod.fst, b ∉ processed) →
      leaderboardGo n st processed =
        st.filterMap (fun p => (topF n p.2).map (fun v => (p.1, v))) := by
  induction st with
  | nil => intro processed _ _; rfl
  | cons p t ih =>
      intro processed hnd hdisj
      cases p with
      | mk bt scores =>
          simp only [List.map_cons, List.nodup_cons] at hnd
          have hbt : bt ∉ processed := hdisj bt (by simp)
          by_cases he : scores.isEmpty
          · have hcond : (scores.isEmpty || decide (bt ∈ processed)) = true := by
              simp [he]
            simp only [leaderboardGo, hcond, if_true, List.filterMap_cons,
              topF, he, if_pos, Option.map_none']
            exact ih processed hnd.2
              (fun b hb => hdisj b (List.mem_cons_of_mem _ hb))
          · have hcond : (scores.isEmpty || decide (bt ∈ processed)) = false := by
              simp [he, hbt]
            have hF : topF n scores = some ((sortedScoresDesc scores).take n) := by
              simp [topF, he]
            simp only [leaderboardGo]
            rw [hcond]
            simp only [Bool.false_eq_true, if_false, List.filterMap_cons, hF,
              Option.map_some']
            have ht := ih (bt :: processed) hnd.2 (fun b hb => by
              simp only [List.mem_cons]
              push_neg
              exact ⟨fun hc => hnd.1 (hc ▸ hb),
                hdisj b (List.mem_cons_of_mem _ hb)⟩)
            rw [ht]

/-- C8: for a well-formed store, the leaderboard command's
`TopAllCategories(n)` is defined exactly on the categories holding at
least one entry, each mapped to `Top(c, n)`; the command itself runs it
with `n = 3`. -/
theorem topAll_domain_exact (st : Store) (n : Nat) (h : Store.WF st)
    (bt : String) (l : CatMap) :
    (dGet bt (topAllCategories st n) = some l ↔
      ∃ scores, dGet bt st = some scores ∧ scores ≠ [] ∧ l = Top st bt n)
    ∧ benchmark_leaderboard st = topAllCategories st 3 := by
  refine ⟨?_, rfl⟩
  rw [topAllCategories, leaderboardGo_eq_filterMap n st [] h.1 (by simp),
    dGet_filterMap_keyed (topF n) st bt h.1]
  cases hbt : dGet bt st with
  | none => simp
  | some scores =>
      by_cases he : scores.isEmpty
      · have h0 : scores = [] := by simpa using he
        simp [topF, he, h0]
      · have hne : scores ≠ [] := by simpa using he
        have hF : topF n scores = some ((sortedScoresDesc scores).take n) := by
          simp [topF, he]
        have hTop : Top st bt n = (sortedScoresDesc scores).take n := by
          rw [Top, hbt]
          rfl
        rw [hTop]
        simp only [Option.some_bind, hF, Option.some.injEq]
        constructor
        · intro hl
          exact ⟨scores, rfl, hne, hl.symm⟩
        · rintro ⟨scores', hs', _, hl⟩
          exact hl.symm

/-- Witness for C8 on a one-category store. -/
theorem topAll_domain_exact_witness :
    dGet "cpu" (topAllCategories [("cpu", [(1, 5)])] 3) =
      some (Top [("cpu", [(1, 5)])] "cpu" 3) :=
  ((topAll_domain_exact [("cpu", [(1, 5)])] 3 (by decide) "cpu"
      (Top [("cpu", [(1, 5)])] "cpu" 3)).1).mpr
    ⟨[(1, 5)], rfl, by decide, rfl⟩

/-- C10: `[p]benchmark delete cpu @user` removes only that user's entry
and never the category key: the category's map shrinks by exactly that
entry, every other lookup is unchanged, the category still appears in
`Categories()` and in the types listing, and when the user was the last
one the category remains present with zero entries. -/
theorem delete_user_keeps_category (st : Store) (bt : String)
    (uid : UserId) (h : Store.WF st)
    (hu : dHasKey ((dGet bt st).getD []) uid = true) :
    dGet bt (benchmark_delete true st bt (some uid)).store =
      some (dDel uid ((dGet bt st).getD []))
    ∧ Get (benchmark_delete true st bt (some uid)).store bt uid = none
    ∧ (∀ uid', uid' ≠ uid →
        Get (benchmark_delete true st bt (some uid)).store bt uid' =
          Get st bt uid')
    ∧ (∀ bt', bt' ≠ bt →
        dGet bt' (benchmark_delete true st bt (some uid)).store =
          dGet bt' st)
    ∧ bt ∈ Categories (benchmark_delete true st bt (some uid)).store
    ∧ bt ∈ (benchmark_types
        (benchmark_delete true st bt (some uid)).store).getD []
    ∧ (∀ x, dGet bt st = some [(uid, x)] →
        dGet bt (benchmark_delete true st bt (some uid)).store = some []) := by
  have hbt : dHasKey st bt = true := by
    cases hbtc : dGet bt st with
    | none => rw [hbtc] at hu; simp [dHasKey, dGet] at hu
    | some scores => simp [dHasKey, hbtc]
  obtain ⟨scores, hbtc⟩ := Option.isSome_iff_exists.1 (by simpa [dHasKey] using hbt)
  have hnd : (scores.map Prod.fst).Nodup := h.2 (bt, scores) (dGet_mem bt scores st hbtc)
  rw [delete_user_present true st bt uid hbt hu]
  have hmem : bt ∈ Categories
      (dSet bt (dDel uid ((dGet bt st).getD [])) st) := by
    show bt ∈ (dSet bt (dDel uid ((dGet bt st).getD [])) st).map Prod.fst
    rw [map_fst_dSet, if_pos hbt]
    exact (dHasKey_iff_mem st bt).1 hbt
  refine ⟨dGet_dSet_self bt _ st, ?_, ?_, ?_, hmem, ?_, ?_⟩
  · simp only [Get, dGet_dSet_self, Option.bind_some, hbtc, Option.getD_some]
    exact dGet_dDel_self uid scores hnd
  · intro uid' hne
    simp only [Get, dGet_dSet_self, Option.bind_some, hbtc, Option.getD_some]
    exact dGet_dDel_ne uid uid' scores hne
  · intro bt' hne
    exact dGet_dSet_ne bt bt' _ st hne
  · have hemp : (dSet bt (dDel uid ((dGet bt st).getD [])) st).isEmpty = false := by
      cases hc : dSet bt (dDel uid ((dGet bt st).getD [])) st with
      | nil => rw [hc] at hmem; simp [Categories] at hmem
      | cons q r => rfl
    simp only [benchmark_types, hemp, Bool.false_eq_true, if_false,
      Option.getD_some, List.mem_mergeSort]
    exact hmem
  · intro x hx
    rw [hx]
    simp [dGet_dSet_self, dDel]

/-- Witness for C10: deleting the last scorer of "cpu" keeps the
category listed with an empty map. -/
theorem delete_user_keeps_category_witness :
    dGet "cpu" (benchmark_delete true [("cpu", [(1, 5)])] "cpu"
      (some 1)).store = some (dDel 1 ((dGet "cpu"
        ([("cpu", [(1, 5)])] : Store)).getD []))
    ∧ "cpu" ∈ Categories (benchmark_delete true [("cpu", [(1, 5)])] "cpu"
        (some 1)).store :=
  ⟨(delete_user_keeps_category [("cpu", [(1, 5)])] "cpu" 1
      (by decide) (by decide)).1,
    (delete_user_keeps_category [("cpu", [(1, 5)])] "cpu" 1
      (by decide) (by decide)).2.2.2.2.1⟩

end BenchmarkLeaderboard
